import Mathlib

/-!
Verification development for the coder-audit-simple repository.

Shallow embedding of the audit-event retrieval and session/aggregate
reconstruction engine:
  - "coder-last.py": the "CoderLast.get_user_sessions" fold that pairs
    workspace_build start events with stop/delete events into sessions,
    and "CoderLast.format_duration".
  - "connect_count.py": the "get_connection_data" pagination loop with
    cursor-cycle detection, and its counting fold over audit logs.

Python dictionaries are modelled as insertion-ordered association lists
(key update keeps the position, deletion removes the key); machine-level
concerns do not arise (all arithmetic is on unbounded timestamps/counts,
matching Python integers).
-/

/-! ## Association lists modelling Python dict -/

/-- Lookup in an insertion-ordered association list (Python "d[k]" / "k in d"). -/
def dictLookup {α : Type} (k : String) : List (String × α) → Option α
  | [] => none
  | (k1, v) :: rest => if k1 = k then some v else dictLookup k rest

/-- Update/insert "d[k] = v": replace in place if the key is present, else append. -/
def dictInsert {α : Type} (k : String) (v : α) : List (String × α) → List (String × α)
  | [] => [(k, v)]
  | (k1, v1) :: rest => if k1 = k then (k1, v) :: rest else (k1, v1) :: dictInsert k v rest

/-- Deletion "del d[k]": remove every entry with the key (on key-nodup states,
the reachable ones, this is exactly removing the one entry). -/
def dictErase {α : Type} (k : String) : List (String × α) → List (String × α)
  | [] => []
  | (k1, v1) :: rest => if k1 = k then dictErase k rest else (k1, v1) :: dictErase k rest

/-! ## Timestamp parsing and duration formatting ("CoderLast.format_duration") -/

/-- Numeric value of a decimal digit character. -/
def digitVal (c : Char) : Nat := c.toNat - 48

/-- Gregorian leap-year test. -/
def isLeap (y : Nat) : Bool := (y % 4 == 0 && y % 100 != 0) || y % 400 == 0

/-- Number of days in a month of a given year. -/
def daysInMonth (y m : Nat) : Nat :=
  if m = 2 then (if isLeap y then 29 else 28)
  else if m = 4 ∨ m = 6 ∨ m = 9 ∨ m = 11 then 30
  else 31

/-- Days since 1970-01-01 of a Gregorian civil date (Hinnant days-from-civil). -/
def daysFromCivil (y m d : Int) : Int :=
  let y1 : Int := if m ≤ 2 then y - 1 else y
  let era : Int := Int.fdiv y1 400
  let yoe : Int := y1 - era * 400
  let doy : Int := Int.fdiv (153 * (m + (if m > 2 then -3 else 9)) + 2) 5 + d - 1
  let doe : Int := yoe * 365 + Int.fdiv yoe 4 - Int.fdiv yoe 100 + doy
  era * 146097 + doe - 719468

/-- Seconds since epoch of a fixed-width ISO-8601 UTC timestamp "YYYY-MM-DDTHH:MM:SSZ".
Models the success domain of "datetime.fromisoformat" after the code replaces the
"Z" suffix with "+00:00"; any string outside this fixed-width shape, or with an
out-of-range field, parses to "none" (in the code: an exception caught by the
bare "except"). -/
def parseTimestamp (s : String) : Option Int :=
  match s.data with
  | [y1, y2, y3, y4, c1, m1, m2, c2, d1, d2, c3, h1, h2, c4, n1, n2, c5, s1, s2, c6] =>
    if y1.isDigit ∧ y2.isDigit ∧ y3.isDigit ∧ y4.isDigit ∧
       m1.isDigit ∧ m2.isDigit ∧ d1.isDigit ∧ d2.isDigit ∧
       h1.isDigit ∧ h2.isDigit ∧ n1.isDigit ∧ n2.isDigit ∧
       s1.isDigit ∧ s2.isDigit ∧
       c1 = '-' ∧ c2 = '-' ∧ c3 = 'T' ∧ c4 = ':' ∧ c5 = ':' ∧ c6 = 'Z' then
      let y := digitVal y1 * 1000 + digitVal y2 * 100 + digitVal y3 * 10 + digitVal y4
      let mo := digitVal m1 * 10 + digitVal m2
      let d := digitVal d1 * 10 + digitVal d2
      let h := digitVal h1 * 10 + digitVal h2
      let mi := digitVal n1 * 10 + digitVal n2
      let se := digitVal s1 * 10 + digitVal s2
      if 1 ≤ y ∧ 1 ≤ mo ∧ mo ≤ 12 ∧ 1 ≤ d ∧ d ≤ daysInMonth y mo ∧
         h ≤ 23 ∧ mi ≤ 59 ∧ se ≤ 59 then
        some (daysFromCivil (Int.ofNat y) (Int.ofNat mo) (Int.ofNat d) * 86400 +
              (h : Int) * 3600 + (mi : Int) * 60 + (se : Int))
      else none
    else none
  | _ => none

/-- Python "f-string" formatting with ":02d": zero-pad nonnegative single digits
to width two; other values print as-is (a sign counts towards the width). -/
def pad2 (n : Int) : String :=
  if 0 ≤ n ∧ n < 10 then "0" ++ toString n else toString n

/-- "CoderLast.format_duration" (coder-last.py lines 43-56): parse the start time;
with an end time, format the difference as "(HH:MM)" using floor division on the
total seconds; a falsy end time ("None" or the empty string) reports
"still logged in"; any parse failure reports "unknown". -/
def format_duration (start_time : String) (end_time : Option String) : String :=
  match parseTimestamp start_time with
  | none => "unknown"
  | some st =>
    match end_time with
    | none => "still logged in"
    | some e =>
      if e = "" then "still logged in"
      else
        match parseTimestamp e with
        | none => "unknown"
        | some en =>
          let d : Int := en - st
          "(" ++ pad2 (Int.fdiv d 3600) ++ ":" ++ pad2 (Int.fdiv (Int.emod d 3600) 60) ++ ")"

/-! ## Audit events and the session-reconstruction fold ("get_user_sessions") -/

/-- One audit-log record, restricted to the fields "get_user_sessions" reads.
Optional fields model missing JSON keys; the accessors below apply the same
defaults as the code ("log.get(...)"). "workspace_name" stands for
"additional_fields.get('workspace_name')". -/
structure Event where
  user : Option String
  action : Option String
  time : Option String
  resource_type : Option String
  ip : Option String
  resource_target : Option String
  workspace_name : Option String
deriving DecidableEq, Repr

/-- "log.get('user', \x7b\x7d).get('username', 'unknown')". -/
def userOf (e : Event) : String := e.user.getD "unknown"

/-- "log.get('action', '')". -/
def actionOf (e : Event) : String := e.action.getD ""

/-- "log.get('time', '')". -/
def timeOf (e : Event) : String := e.time.getD ""

/-- "log.get('resource_type', '')". -/
def resourceTypeOf (e : Event) : String := e.resource_type.getD ""

/-- "log.get('ip', '')". -/
def ipOf (e : Event) : String := e.ip.getD ""

/-- "log.get('resource_target', '')". -/
def resourceTargetOf (e : Event) : String := e.resource_target.getD ""

/-- "additional_fields.get('workspace_name', resource_target or 'workspace')". -/
def workspaceNameOf (e : Event) : String :=
  match e.workspace_name with
  | some w => w
  | none => if resourceTargetOf e = "" then "workspace" else resourceTargetOf e

/-- The session key "f\x7buser\x7d:\x7bworkspace_name\x7d" (coder-last.py lines 92, 101). -/
def sessionKey (e : Event) : String := userOf e ++ ":" ++ workspaceNameOf e

/-- Value stored in the "user_sessions" dict on a start event (lines 93-98). -/
structure OpenSession where
  start_time : String
  ip : String
  workspace : String
  user : String
deriving DecidableEq, Repr

/-- One produced session record (closed: lines 104-111; open: lines 116-123). -/
structure Session where
  username : String
  terminal : String
  ip : String
  start_time : String
  end_time : Option String
  duration : String
deriving DecidableEq, Repr

/-- The "user_sessions" entry built from a start event (lines 93-98). -/
def mkOpen (e : Event) : OpenSession :=
  ⟨timeOf e, ipOf e, workspaceNameOf e, userOf e⟩

/-- The closed-session record appended on a stop/delete event (lines 104-111):
username and terminal come from the closing event, ip and start time from the
stored open session. -/
def closeRecord (os : OpenSession) (e : Event) : Session :=
  ⟨userOf e, (workspaceNameOf e).take 24, os.ip, os.start_time,
   some (timeOf e), format_duration os.start_time (some (timeOf e))⟩

/-- One step of the reconstruction fold (coder-last.py lines 77-112), acting on
the pair (sessions list, user_sessions dict). -/
def step (st : List Session × List (String × OpenSession)) (e : Event) :
    List Session × List (String × OpenSession) :=
  if resourceTypeOf e = "workspace_build" then
    if actionOf e = "start" then
      (st.1, dictInsert (sessionKey e) (mkOpen e) st.2)
    else if actionOf e = "stop" ∨ actionOf e = "delete" then
      match dictLookup (sessionKey e) st.2 with
      | some os => (st.1 ++ [closeRecord os e], dictErase (sessionKey e) st.2)
      | none => st
    else st
  else st

/-- Lexicographic comparison of character lists by code point, the order Python
uses to compare strings. -/
def charsLe : List Char → List Char → Bool
  | [], _ => true
  | _ :: _, [] => false
  | c1 :: r1, c2 :: r2 =>
    if c1.toNat < c2.toNat then true
    else if c2.toNat < c1.toNat then false
    else charsLe r1 r2

/-- Python string comparison "a <= b" (lexicographic on code points). -/
def strLe (a b : String) : Bool := charsLe a.data b.data

/-- Stable insertion into a list already sorted ascending by time string. -/
def insTime (e : Event) : List Event → List Event
  | [] => [e]
  | x :: xs => if strLe (timeOf x) (timeOf e) then x :: insTime e xs else e :: x :: xs

/-- "sorted(logs, key=lambda x: x.get('time', ''))" (line 75): stable ascending
sort by the time string (lexicographic comparison on the fixed-width format). -/
def sortByTime (logs : List Event) : List Event :=
  logs.foldl (fun acc e => insTime e acc) []

/-- The fold of lines 74-112: state after processing the time-sorted batch. -/
def reconstructState (logs : List Event) :
    List Session × List (String × OpenSession) :=
  (sortByTime logs).foldl step ([], [])

/-- The open-session record appended for a still-open session (lines 116-123). -/
def openRecord (os : OpenSession) : Session :=
  ⟨os.user, os.workspace.take 24, os.ip, os.start_time, none, "still logged in"⟩

/-- Output of lines 71-123: the closed sessions followed by the still-open ones
(the final presentation sort and truncation of lines 125-128 are not part of
reconstruction). -/
def sessionsOutput (logs : List Event) : List Session :=
  (reconstructState logs).1 ++ (reconstructState logs).2.map (fun p => openRecord p.2)

/-- "CoderLast.get_audit_logs" error path (coder-last.py lines 34-41): a request
exception is caught, a message is printed, and the empty list is returned. -/
def get_audit_logs (resp : Except Unit (List Event)) : List Event :=
  match resp with
  | Except.ok logs => logs
  | Except.error _ => []

/-! ## Instrumented fold for per-key attribution

"stepT" is "step" with each emitted closed session tagged by the session key of
the event that closed it; erasing the tags recovers the source fold exactly
(theorem "foldl_step_eq_foldl_stepT" below), so statements about "the sessions
produced for a given key" are statements about the source output. -/

/-- The closed sessions emitted by one event (tagged with the emitting key). -/
def emit1 (e : Event) (m : List (String × OpenSession)) : List (String × Session) :=
  if resourceTypeOf e = "workspace_build" ∧ (actionOf e = "stop" ∨ actionOf e = "delete") then
    match dictLookup (sessionKey e) m with
    | some os => [(sessionKey e, closeRecord os e)]
    | none => []
  else []

/-- The "user_sessions" dict transition of one event. -/
def mapStep (e : Event) (m : List (String × OpenSession)) : List (String × OpenSession) :=
  if resourceTypeOf e = "workspace_build" then
    if actionOf e = "start" then dictInsert (sessionKey e) (mkOpen e) m
    else if actionOf e = "stop" ∨ actionOf e = "delete" then
      match dictLookup (sessionKey e) m with
      | some _ => dictErase (sessionKey e) m
      | none => m
    else m
  else m

/-- Tagged version of "step". -/
def stepT (st : List (String × Session) × List (String × OpenSession)) (e : Event) :
    List (String × Session) × List (String × OpenSession) :=
  (st.1 ++ emit1 e st.2, mapStep e st.2)

/-- Tagged closed sessions of a batch. -/
def taggedClosed (logs : List Event) : List (String × Session) :=
  ((sortByTime logs).foldl stepT ([], [])).1

/-- The workspace_build events of a batch carrying a given session key. -/
def keyEvents (k : String) (evs : List Event) : List Event :=
  evs.filter (fun e => resourceTypeOf e == "workspace_build" && sessionKey e == k)

/-! ## The pagination and counting loop of "connect_count.get_connection_data" -/

/-- One audit-log record as read by "get_connection_data": "log.get('id')",
"log.get('action')", and "log.get('user', \x7b\x7d).get('username', 'unknown')". -/
structure CLog where
  id : Option String
  action : Option String
  username : Option String
deriving DecidableEq, Repr

/-- Username default applied at the login-count site (connect_count.py line 112). -/
def usernameOf (l : CLog) : String := l.username.getD "unknown"

/-- The "connection_actions" list (connect_count.py lines 54-61). -/
def connection_actions : List String :=
  ["login", "start_workspace_connection", "start", "connect_workspace",
   "workspace_connection", "workspace.connect"]

/-- The mutable counters of "get_connection_data": "connection_count",
"action_counts" (a defaultdict over the raw, possibly absent, action) and
"login_counts" (a defaultdict over usernames). -/
structure Counts where
  connection_count : Nat
  action_counts : Option String → Nat
  login_counts : String → Nat

/-- All three counters start at zero. -/
def initCounts : Counts := ⟨0, fun _ => 0, fun _ => 0⟩

/-- Pointwise increment of the action counter. -/
def bumpAction (f : Option String → Nat) (a : Option String) : Option String → Nat :=
  fun x => if x = a then f x + 1 else f x

/-- Pointwise increment of the login counter. -/
def bumpLogin (f : String → Nat) (u : String) : String → Nat :=
  fun x => if x = u then f x + 1 else f x

/-- Processing of one log record (connect_count.py lines 104-117). -/
def processLog (cs : Counts) (l : CLog) : Counts :=
  let cs1 : Counts := { cs with action_counts := bumpAction cs.action_counts l.action }
  let cs2 : Counts :=
    if l.action = some "login" then
      { cs1 with login_counts := bumpLogin cs1.login_counts (usernameOf l) }
    else cs1
  match l.action with
  | some a =>
    if a ∈ connection_actions then
      { cs2 with connection_count := cs2.connection_count + 1 }
    else cs2
  | none => cs2

/-- Processing of one fetched page. -/
def processLogs (cs : Counts) (logs : List CLog) : Counts :=
  logs.foldl processLog cs

/-- A server response to one page request: a 200 with a list of logs, or any
non-success status. -/
inductive FetchResp where
  | ok (logs : List CLog)
  | err
deriving DecidableEq

/-- "logs[-1].get('id')": pagination cursor taken from the last log of a page. -/
def lastId (logs : List CLog) : Option String :=
  logs.getLast?.bind (fun l => l.id)

/-- The "while True" pagination loop of "get_connection_data" (connect_count.py
lines 65-129), with the transport abstracted as the sequence of responses to
successive requests ("fetch i" answers the i-th request; the fixed query window
and the cursor parameter do not feed back into this model). Fuel bounds the
recursion; "none" means the fuel ran out before the loop ended. The loop ends
("some"): on a repeated non-null cursor (lines 67-69), on a non-200 response
(lines 90-93, after printing the status), on an empty page (lines 99-101), or
on a short page (lines 122-125); otherwise the cursor becomes the last log id
(line 128) and the loop repeats. -/
def connLoop (fetch : Nat → FetchResp) :
    Nat → Nat → Option String → Option String → Counts → Option Counts
  | 0, _, _, _, _ => none
  | fuel + 1, i, after_id, previous_after_id, cs =>
    if after_id = previous_after_id ∧ after_id ≠ none then some cs
    else
      match fetch i with
      | FetchResp.err => some cs
      | FetchResp.ok logs =>
        if logs = [] then some cs
        else
          let cs2 := processLogs cs logs
          if logs.length < 100 then some cs2
          else connLoop fetch fuel (i + 1) (lastId logs) after_id cs2

/-- "get_connection_data" entry point: cursor and previous cursor start as
"None", the counters at zero. -/
def get_connection_data (fetch : Nat → FetchResp) (fuel : Nat) : Option Counts :=
  connLoop fetch fuel 0 none none initCounts

/-! ## Concrete sample data used in closed instance theorems -/

/-- Start event: alice opens workspace dev1 at 09:00. -/
def sampleStart : Event :=
  ⟨some "alice", some "start", some "2024-01-01T09:00:00Z", some "workspace_build",
   some "10.0.0.1", some "dev1", some "dev1"⟩

/-- Stop event: alice stops workspace dev1 at 11:30. -/
def sampleStop : Event :=
  ⟨some "alice", some "stop", some "2024-01-01T11:30:00Z", some "workspace_build",
   some "10.0.0.1", some "dev1", some "dev1"⟩

/-- Second start event for the same key at 10:00. -/
def sampleStart2 : Event :=
  ⟨some "alice", some "start", some "2024-01-01T10:00:00Z", some "workspace_build",
   some "10.0.0.2", some "dev1", some "dev1"⟩

/-- Third start event for the same key at 12:00, after the stop. -/
def sampleStart3 : Event :=
  ⟨some "alice", some "start", some "2024-01-01T12:00:00Z", some "workspace_build",
   some "10.0.0.3", some "dev1", some "dev1"⟩

/-- Start by user "a" on workspace "b:c": its session key is "a:b:c". -/
def joinStart : Event :=
  ⟨some "a", some "start", some "2024-01-01T09:00:00Z", some "workspace_build",
   some "", some "b:c", some "b:c"⟩

/-- Stop by user "a:b" on workspace "c": its session key is also "a:b:c". -/
def joinStop : Event :=
  ⟨some "a:b", some "stop", some "2024-01-01T10:00:00Z", some "workspace_build",
   some "", some "c", some "c"⟩

/-- A login audit record with id "X". -/
def sampleLoginLog : CLog := ⟨some "X", some "login", some "alice"⟩

/-- A full page (exactly the request limit of 100) ending in id "X". -/
def samplePage : List CLog := List.replicate 100 sampleLoginLog

/-- Server stub answering the first two requests with the same full page
(hence the same cursor "X" twice in a row). -/
def fetchCycle : Nat → FetchResp :=
  fun i => if i ≤ 1 then FetchResp.ok samplePage else FetchResp.err

/-- Server stub answering one full page and then a non-success status. -/
def fetchFail : Nat → FetchResp :=
  fun i => if i = 0 then FetchResp.ok samplePage else FetchResp.err

/-! ## Lemmas about the dict model -/

theorem dictLookup_dictInsert_self {α : Type} (k : String) (v : α) (m : List (String × α)) :
    dictLookup k (dictInsert k v m) = some v := by
  induction m with
  | nil => simp [dictInsert, dictLookup]
  | cons p rest ih =>
    obtain ⟨k1, v1⟩ := p
    by_cases h : k1 = k
    · simp [dictInsert, dictLookup, h]
    · simp [dictInsert, dictLookup, h, ih]

theorem dictLookup_dictInsert_ne {α : Type} (q k : String) (v : α)
    (m : List (String × α)) (h : ¬ k = q) :
    dictLookup q (dictInsert k v m) = dictLookup q m := by
  induction m with
  | nil => simp [dictInsert, dictLookup, h]
  | cons p rest ih =>
    obtain ⟨k1, v1⟩ := p
    simp only [dictInsert]
    by_cases h1 : k1 = k
    · rw [if_pos h1]
      have h2 : ¬ k1 = q := by rw [h1]; exact h
      simp only [dictLookup]
      rw [if_neg h2, if_neg h2]
    · rw [if_neg h1]
      simp only [dictLookup]
      by_cases h2 : k1 = q
      · rw [if_pos h2, if_pos h2]
      · rw [if_neg h2, if_neg h2, ih]

theorem dictLookup_dictErase_self {α : Type} (k : String) (m : List (String × α)) :
    dictLookup k (dictErase k m) = none := by
  induction m with
  | nil => simp [dictErase, dictLookup]
  | cons p rest ih =>
    obtain ⟨k1, v1⟩ := p
    simp only [dictErase]
    by_cases h : k1 = k
    · rw [if_pos h]; exact ih
    · rw [if_neg h]
      simp only [dictLookup]
      rw [if_neg h]
      exact ih

theorem dictLookup_dictErase_ne {α : Type} (q k : String)
    (m : List (String × α)) (h : ¬ k = q) :
    dictLookup q (dictErase k m) = dictLookup q m := by
  induction m with
  | nil => simp [dictErase, dictLookup]
  | cons p rest ih =>
    obtain ⟨k1, v1⟩ := p
    simp only [dictErase]
    by_cases h1 : k1 = k
    · rw [if_pos h1]
      have h2 : ¬ k1 = q := by rw [h1]; exact h
      simp only [dictLookup]
      rw [if_neg h2]
      exact ih
    · rw [if_neg h1]
      simp only [dictLookup]
      by_cases h2 : k1 = q
      · rw [if_pos h2, if_pos h2]
      · rw [if_neg h2, if_neg h2, ih]

theorem mem_keys_dictInsert {α : Type} (q k : String) (v : α) (m : List (String × α)) :
    q ∈ (dictInsert k v m).map Prod.fst ↔ q = k ∨ q ∈ m.map Prod.fst := by
  induction m with
  | nil => simp [dictInsert]
  | cons p rest ih =>
    obtain ⟨k1, v1⟩ := p
    simp only [dictInsert]
    by_cases h : k1 = k
    · rw [if_pos h]
      subst h
      simp only [List.map_cons, List.mem_cons]
      tauto
    · rw [if_neg h]
      simp only [List.map_cons, List.mem_cons, ih]
      tauto

theorem mem_keys_dictErase {α : Type} (q k : String) (m : List (String × α))
    (h : q ∈ (dictErase k m).map Prod.fst) : q ∈ m.map Prod.fst := by
  induction m with
  | nil => simp [dictErase] at h
  | cons p rest ih =>
    obtain ⟨k1, v1⟩ := p
    simp only [dictErase] at h
    by_cases h1 : k1 = k
    · rw [if_pos h1] at h
      exact List.mem_cons_of_mem _ (ih h)
    · rw [if_neg h1] at h
      simp only [List.map_cons, List.mem_cons] at h ⊢
      rcases h with h | h
      · exact Or.inl h
      · exact Or.inr (ih h)

theorem nodup_keys_dictInsert {α : Type} (k : String) (v : α) (m : List (String × α))
    (h : (m.map Prod.fst).Nodup) : ((dictInsert k v m).map Prod.fst).Nodup := by
  induction m with
  | nil => simp [dictInsert]
  | cons p rest ih =>
    obtain ⟨k1, v1⟩ := p
    simp only [List.map_cons, List.nodup_cons] at h
    simp only [dictInsert]
    by_cases h1 : k1 = k
    · rw [if_pos h1]
      simp only [List.map_cons, List.nodup_cons]
      exact h
    · rw [if_neg h1]
      simp only [List.map_cons, List.nodup_cons]
      refine ⟨?_, ih h.2⟩
      rw [mem_keys_dictInsert]
      rintro (rfl | hm)
      · exact h1 rfl
      · exact h.1 hm

theorem nodup_keys_dictErase {α : Type} (k : String) (m : List (String × α))
    (h : (m.map Prod.fst).Nodup) : ((dictErase k m).map Prod.fst).Nodup := by
  induction m with
  | nil => simp [dictErase]
  | cons p rest ih =>
    obtain ⟨k1, v1⟩ := p
    simp only [List.map_cons, List.nodup_cons] at h
    simp only [dictErase]
    by_cases h1 : k1 = k
    · rw [if_pos h1]
      exact ih h.2
    · rw [if_neg h1]
      simp only [List.map_cons, List.nodup_cons]
      exact ⟨fun hm => h.1 (mem_keys_dictErase _ _ _ hm), ih h.2⟩

theorem dictLookup_some_mem {α : Type} (k : String) (v : α) (m : List (String × α))
    (h : dictLookup k m = some v) : (k, v) ∈ m := by
  induction m with
  | nil => simp [dictLookup] at h
  | cons p rest ih =>
    obtain ⟨k1, v1⟩ := p
    simp only [dictLookup] at h
    by_cases h1 : k1 = k
    · rw [if_pos h1] at h
      rw [Option.some_inj] at h
      subst h1
      subst h
      exact List.mem_cons_self _ _
    · rw [if_neg h1] at h
      exact List.mem_cons_of_mem _ (ih h)

theorem countP_keys_eq_zero {α : Type} (k : String) (m : List (String × α))
    (h : k ∉ m.map Prod.fst) : m.countP (fun p => p.1 == k) = 0 := by
  rw [List.countP_eq_zero]
  intro p hp
  simp only [beq_iff_eq]
  intro hk
  exact h (hk ▸ List.mem_map_of_mem Prod.fst hp)

theorem countP_keys_le_one {α : Type} (k : String) (m : List (String × α))
    (h : (m.map Prod.fst).Nodup) : m.countP (fun p => p.1 == k) ≤ 1 := by
  induction m with
  | nil => simp
  | cons p rest ih =>
    obtain ⟨k1, v1⟩ := p
    simp only [List.map_cons, List.nodup_cons] at h
    rw [List.countP_cons]
    by_cases h1 : k1 = k
    · subst h1
      have h0 : rest.countP (fun p => p.1 == k1) = 0 := countP_keys_eq_zero _ _ h.1
      simp [h0]
    · simpa [h1] using ih h.2

theorem countP_keys_eq_one_of_lookup {α : Type} (k : String) (v : α)
    (m : List (String × α)) (hl : dictLookup k m = some v)
    (h : (m.map Prod.fst).Nodup) : m.countP (fun p => p.1 == k) = 1 := by
  induction m with
  | nil => simp [dictLookup] at hl
  | cons p rest ih =>
    obtain ⟨k1, v1⟩ := p
    simp only [List.map_cons, List.nodup_cons] at h
    rw [List.countP_cons]
    by_cases h1 : k1 = k
    · subst h1
      have h0 : rest.countP (fun p => p.1 == k1) = 0 := countP_keys_eq_zero _ _ h.1
      simp [h0]
    · simp only [dictLookup, if_neg h1] at hl
      simpa [h1] using ih hl h.2

/-! ## Linking the source fold with the instrumented fold -/

theorem step_eq (ss : List Session) (m : List (String × OpenSession)) (e : Event) :
    step (ss, m) e = (ss ++ (emit1 e m).map Prod.snd, mapStep e m) := by
  unfold step emit1 mapStep
  by_cases h1 : resourceTypeOf e = "workspace_build"
  · by_cases h2 : actionOf e = "start"
    · have h3 : ¬ (actionOf e = "stop" ∨ actionOf e = "delete") := by
        rw [h2]; decide
      simp [h1, h2, h3]
    · by_cases h3 : actionOf e = "stop" ∨ actionOf e = "delete"
      · cases hl : dictLookup (sessionKey e) m with
        | some os => simp [h1, h2, h3, hl]
        | none => simp [h1, h2, h3, hl]
      · simp [h1, h2, h3]
  · simp [h1]

theorem foldl_stepT_acc (evs : List Event) (ts : List (String × Session))
    (m : List (String × OpenSession)) :
    evs.foldl stepT (ts, m) =
      (ts ++ (evs.foldl stepT ([], m)).1, (evs.foldl stepT ([], m)).2) := by
  induction evs generalizing ts m with
  | nil => simp
  | cons e rest ih =>
    simp only [List.foldl_cons]
    have h1 : stepT (ts, m) e = (ts ++ emit1 e m, mapStep e m) := rfl
    have h2 : stepT ([], m) e = ([] ++ emit1 e m, mapStep e m) := rfl
    rw [h1, h2, ih (ts ++ emit1 e m) (mapStep e m), ih ([] ++ emit1 e m) (mapStep e m)]
    simp

theorem foldl_step_eq_foldl_stepT (evs : List Event) (ts : List (String × Session))
    (m : List (String × OpenSession)) :
    evs.foldl step (ts.map Prod.snd, m) =
      ((evs.foldl stepT (ts, m)).1.map Prod.snd, (evs.foldl stepT (ts, m)).2) := by
  induction evs generalizing ts m with
  | nil => simp
  | cons e rest ih =>
    simp only [List.foldl_cons]
    rw [step_eq]
    have hmap : ts.map Prod.snd ++ (emit1 e m).map Prod.snd =
        (ts ++ emit1 e m).map Prod.snd := (List.map_append _ _ _).symm
    rw [hmap, ih (ts ++ emit1 e m) (mapStep e m)]
    rfl

theorem reconstructState_fst_eq_tagged (logs : List Event) :
    (reconstructState logs).1 = (taggedClosed logs).map Prod.snd := by
  have h := foldl_step_eq_foldl_stepT (sortByTime logs) [] []
  simp only [List.map_nil] at h
  rw [reconstructState, h]
  rfl

theorem reconstructState_snd_eq_tagged (logs : List Event) :
    (reconstructState logs).2 = ((sortByTime logs).foldl stepT ([], [])).2 := by
  have h := foldl_step_eq_foldl_stepT (sortByTime logs) [] []
  simp only [List.map_nil] at h
  rw [reconstructState, h]

/-! ## Per-key projection of the fold -/

theorem keyEvents_cons_of_key (e : Event) (k : String) (rest : List Event)
    (h1 : resourceTypeOf e = "workspace_build") (h2 : sessionKey e = k) :
    keyEvents k (e :: rest) = e :: keyEvents k rest := by
  have hb : (resourceTypeOf e == "workspace_build" && sessionKey e == k) = true := by
    simp only [Bool.and_eq_true, beq_iff_eq]
    exact ⟨h1, h2⟩
  simp [keyEvents, List.filter_cons, hb]

theorem keyEvents_cons_of_not (e : Event) (k : String) (rest : List Event)
    (h : ¬ (resourceTypeOf e = "workspace_build" ∧ sessionKey e = k)) :
    keyEvents k (e :: rest) = keyEvents k rest := by
  have hb : ¬ (resourceTypeOf e == "workspace_build" && sessionKey e == k) = true := by
    simp only [Bool.and_eq_true, beq_iff_eq]
    exact h
  simp [keyEvents, List.filter_cons, hb]

theorem mapStep_lookup_of_not (e : Event) (k : String) (m : List (String × OpenSession))
    (h : ¬ (resourceTypeOf e = "workspace_build" ∧ sessionKey e = k)) :
    dictLookup k (mapStep e m) = dictLookup k m := by
  unfold mapStep
  by_cases h1 : resourceTypeOf e = "workspace_build"
  · have hk : ¬ sessionKey e = k := fun hk => h ⟨h1, hk⟩
    by_cases h2 : actionOf e = "start"
    · simp only [if_pos h1, if_pos h2]
      exact dictLookup_dictInsert_ne k (sessionKey e) _ m hk
    · by_cases h3 : actionOf e = "stop" ∨ actionOf e = "delete"
      · simp only [if_pos h1, if_neg h2, if_pos h3]
        cases hl : dictLookup (sessionKey e) m with
        | some os =>
          exact dictLookup_dictErase_ne k (sessionKey e) m hk
        | none => rfl
      · simp only [if_pos h1, if_neg h2, if_neg h3]
  · simp only [if_neg h1]

theorem filter_emit1_of_not (e : Event) (k : String) (m : List (String × OpenSession))
    (h : ¬ (resourceTypeOf e = "workspace_build" ∧ sessionKey e = k)) :
    (emit1 e m).filter (fun p => p.1 == k) = [] := by
  unfold emit1
  by_cases h1 : resourceTypeOf e = "workspace_build" ∧
      (actionOf e = "stop" ∨ actionOf e = "delete")
  · have hk : ¬ sessionKey e = k := fun hk => h ⟨h1.1, hk⟩
    rw [if_pos h1]
    cases hl : dictLookup (sessionKey e) m with
    | some os => simp [hk]
    | none => rfl
  · rw [if_neg h1]
    rfl

theorem filter_emit1_of_key (e : Event) (k : String) (m : List (String × OpenSession))
    (hk : sessionKey e = k) :
    (emit1 e m).filter (fun p => p.1 == k) = emit1 e m := by
  unfold emit1
  by_cases h1 : resourceTypeOf e = "workspace_build" ∧
      (actionOf e = "stop" ∨ actionOf e = "delete")
  · rw [if_pos h1]
    cases hl : dictLookup (sessionKey e) m with
    | some os => simp [hk]
    | none => rfl
  · rw [if_neg h1]
    rfl

theorem emit1_congr (e : Event) (k : String) (m1 m2 : List (String × OpenSession))
    (hk : sessionKey e = k) (h : dictLookup k m1 = dictLookup k m2) :
    emit1 e m1 = emit1 e m2 := by
  unfold emit1
  rw [hk, h]

theorem mapStep_lookup_congr (e : Event) (k : String) (m1 m2 : List (String × OpenSession))
    (hk : sessionKey e = k) (h : dictLookup k m1 = dictLookup k m2) :
    dictLookup k (mapStep e m1) = dictLookup k (mapStep e m2) := by
  unfold mapStep
  by_cases h1 : resourceTypeOf e = "workspace_build"
  · by_cases h2 : actionOf e = "start"
    · simp only [if_pos h1, if_pos h2, hk]
      rw [dictLookup_dictInsert_self, dictLookup_dictInsert_self]
    · by_cases h3 : actionOf e = "stop" ∨ actionOf e = "delete"
      · simp only [if_pos h1, if_neg h2, if_pos h3, hk, h]
        cases hl : dictLookup k m2 with
        | some os => rw [dictLookup_dictErase_self, dictLookup_dictErase_self]
        | none => exact h
      · simp only [if_pos h1, if_neg h2, if_neg h3]
        exact h
  · simp only [if_neg h1]
    exact h

theorem foldl_stepT_cons_normal (e : Event) (rest : List Event)
    (m : List (String × OpenSession)) :
    (e :: rest).foldl stepT ([], m) =
      (emit1 e m ++ (rest.foldl stepT ([], mapStep e m)).1,
       (rest.foldl stepT ([], mapStep e m)).2) := by
  simp only [List.foldl_cons]
  have h0 : stepT ([], m) e = ([] ++ emit1 e m, mapStep e m) := rfl
  rw [h0]
  simpa using foldl_stepT_acc rest (emit1 e m) (mapStep e m)

theorem proj_key (k : String) (evs : List Event) :
    ∀ m1 m2 : List (String × OpenSession), dictLookup k m1 = dictLookup k m2 →
      ((evs.foldl stepT ([], m1)).1.filter (fun p => p.1 == k) =
        ((keyEvents k evs).foldl stepT ([], m2)).1.filter (fun p => p.1 == k)) ∧
      dictLookup k (evs.foldl stepT ([], m1)).2 =
        dictLookup k ((keyEvents k evs).foldl stepT ([], m2)).2 := by
  induction evs with
  | nil =>
    intro m1 m2 h
    exact ⟨rfl, h⟩
  | cons e rest ih =>
    intro m1 m2 h
    by_cases hp : resourceTypeOf e = "workspace_build" ∧ sessionKey e = k
    · obtain ⟨ih1, ih2⟩ := ih (mapStep e m1) (mapStep e m2)
        (mapStep_lookup_congr e k m1 m2 hp.2 h)
      rw [keyEvents_cons_of_key e k rest hp.1 hp.2,
          foldl_stepT_cons_normal e rest m1,
          foldl_stepT_cons_normal e (keyEvents k rest) m2]
      constructor
      · simp only [List.filter_append]
        rw [emit1_congr e k m1 m2 hp.2 h, ih1]
      · exact ih2
    · obtain ⟨ih1, ih2⟩ := ih (mapStep e m1) m2
        ((mapStep_lookup_of_not e k m1 hp).trans h)
      rw [keyEvents_cons_of_not e k rest hp, foldl_stepT_cons_normal e rest m1]
      constructor
      · simp only [List.filter_append]
        rw [filter_emit1_of_not e k m1 hp, ih1]
        rfl
      · exact ih2

/-! ## Shape of emissions and key-uniqueness invariant -/

theorem emit1_mem_shape (e : Event) (m : List (String × OpenSession))
    (p : String × Session) (hp : p ∈ emit1 e m) :
    ∃ os, p = (sessionKey e, closeRecord os e) := by
  unfold emit1 at hp
  by_cases h1 : resourceTypeOf e = "workspace_build" ∧
      (actionOf e = "stop" ∨ actionOf e = "delete")
  · rw [if_pos h1] at hp
    cases hl : dictLookup (sessionKey e) m with
    | some os =>
      rw [hl] at hp
      simp only [List.mem_singleton] at hp
      exact ⟨os, hp⟩
    | none =>
      rw [hl] at hp
      simp at hp
  · rw [if_neg h1] at hp
    simp at hp

theorem mem_foldl_step_fst (evs : List Event) :
    ∀ (ss : List Session) (m : List (String × OpenSession)) (s : Session),
      s ∈ (evs.foldl step (ss, m)).1 →
      s ∈ ss ∨ ∃ os e, s = closeRecord os e := by
  induction evs with
  | nil =>
    intro ss m s hs
    exact Or.inl hs
  | cons e rest ih =>
    intro ss m s hs
    simp only [List.foldl_cons] at hs
    rw [step_eq] at hs
    rcases ih _ _ s hs with hmem | hex
    · rcases List.mem_append.mp hmem with hmem1 | hmem2
      · exact Or.inl hmem1
      · obtain ⟨p, hp, hps⟩ := List.mem_map.mp hmem2
        obtain ⟨os, rfl⟩ := emit1_mem_shape e m p hp
        exact Or.inr ⟨os, e, hps.symm⟩
    · exact Or.inr hex

theorem nodup_keys_mapStep (e : Event) (m : List (String × OpenSession))
    (h : (m.map Prod.fst).Nodup) : ((mapStep e m).map Prod.fst).Nodup := by
  unfold mapStep
  by_cases h1 : resourceTypeOf e = "workspace_build"
  · by_cases h2 : actionOf e = "start"
    · simp only [if_pos h1, if_pos h2]
      exact nodup_keys_dictInsert _ _ m h
    · by_cases h3 : actionOf e = "stop" ∨ actionOf e = "delete"
      · simp only [if_pos h1, if_neg h2, if_pos h3]
        cases hl : dictLookup (sessionKey e) m with
        | some os => exact nodup_keys_dictErase _ m h
        | none => exact h
      · simp only [if_pos h1, if_neg h2, if_neg h3]
        exact h
  · simp only [if_neg h1]
    exact h

theorem nodup_keys_foldl_step (evs : List Event) :
    ∀ (ss : List Session) (m : List (String × OpenSession)),
      (m.map Prod.fst).Nodup → (((evs.foldl step (ss, m)).2).map Prod.fst).Nodup := by
  induction evs with
  | nil =>
    intro ss m h
    exact h
  | cons e rest ih =>
    intro ss m h
    simp only [List.foldl_cons]
    rw [step_eq]
    exact ih _ _ (nodup_keys_mapStep e m h)

/-! ## Lemmas about the counting fold of "get_connection_data" -/

theorem processLog_action_counts (cs : Counts) (l : CLog) :
    (processLog cs l).action_counts = bumpAction cs.action_counts l.action := by
  unfold processLog
  cases hA : l.action <;> simp only [hA] <;> split_ifs <;> rfl

theorem processLog_login_counts (cs : Counts) (l : CLog) :
    (processLog cs l).login_counts =
      if l.action = some "login" then bumpLogin cs.login_counts (usernameOf l)
      else cs.login_counts := by
  unfold processLog
  cases hA : l.action with
  | none => simp [hA]
  | some a =>
    by_cases hl : a = "login"
    · subst hl
      simp only [hA]
      split <;> simp
    · simp only [hA]
      have hl2 : ¬ (some a = some "login") := by simp [hl]
      rw [if_neg hl2]
      split <;> simp [hl2]

theorem processLogs_cons (cs : Counts) (l : CLog) (rest : List CLog) :
    processLogs cs (l :: rest) = processLogs (processLog cs l) rest := rfl

theorem processLogs_action_counts (bs : List CLog) :
    ∀ (cs : Counts) (a : Option String),
      (processLogs cs bs).action_counts a =
        cs.action_counts a + bs.countP (fun l => l.action == a) := by
  induction bs with
  | nil =>
    intro cs a
    simp [processLogs]
  | cons l rest ih =>
    intro cs a
    rw [processLogs_cons, ih, processLog_action_counts]
    simp only [List.countP_cons]
    unfold bumpAction
    cases hb : (l.action == a) with
    | true =>
      have h : a = l.action := (eq_of_beq hb).symm
      have hone : (if true = true then 1 else 0) = 1 := by decide
      rw [if_pos h, hone]
      omega
    | false =>
      have h : ¬ a = l.action := by
        intro hh
        rw [hh, beq_self_eq_true] at hb
        exact Bool.noConfusion hb
      have hzero : (if false = true then 1 else 0) = 0 := by decide
      rw [if_neg h, hzero]
      omega

theorem processLogs_login_counts (bs : List CLog) :
    ∀ (cs : Counts) (u : String),
      (processLogs cs bs).login_counts u =
        cs.login_counts u +
          bs.countP (fun l => l.action == some "login" && usernameOf l == u) := by
  induction bs with
  | nil =>
    intro cs u
    simp [processLogs]
  | cons l rest ih =>
    intro cs u
    rw [processLogs_cons, ih, processLog_login_counts]
    simp only [List.countP_cons]
    cases hb : (l.action == some "login" && usernameOf l == u) with
    | true =>
      have hone : (if true = true then 1 else 0) = 1 := by decide
      rw [Bool.and_eq_true] at hb
      have hl : l.action = some "login" := eq_of_beq hb.1
      have hu : u = usernameOf l := (eq_of_beq hb.2).symm
      rw [if_pos hl]
      unfold bumpLogin
      rw [if_pos hu, hone]
      omega
    | false =>
      have hzero : (if false = true then 1 else 0) = 0 := by decide
      by_cases hl : l.action = some "login"
      · rw [if_pos hl]
        unfold bumpLogin
        have hu : ¬ u = usernameOf l := by
          intro hh
          rw [Bool.and_eq_false_iff] at hb
          rcases hb with hb | hb
          · rw [hl, beq_self_eq_true] at hb
            exact Bool.noConfusion hb
          · rw [hh, beq_self_eq_true] at hb
            exact Bool.noConfusion hb
        rw [if_neg hu, hzero]
        omega
      · rw [if_neg hl, hzero]
        omega

/-! ## Stepping lemmas for the pagination loop -/

theorem connLoop_succ (fetch : Nat → FetchResp) (fuel i : Nat)
    (after_id previous_after_id : Option String) (cs : Counts) :
    connLoop fetch (fuel + 1) i after_id previous_after_id cs =
      if after_id = previous_after_id ∧ after_id ≠ none then some cs
      else
        match fetch i with
        | FetchResp.err => some cs
        | FetchResp.ok logs =>
          if logs = [] then some cs
          else
            let cs2 := processLogs cs logs
            if logs.length < 100 then some cs2
            else connLoop fetch fuel (i + 1) (lastId logs) after_id cs2 := rfl

theorem connLoop_break_cycle (fetch : Nat → FetchResp) (fuel i : Nat)
    (after_id previous_after_id : Option String) (cs : Counts)
    (hc : after_id = previous_after_id ∧ after_id ≠ none) :
    connLoop fetch (fuel + 1) i after_id previous_after_id cs = some cs := by
  rw [connLoop_succ, if_pos hc]

theorem connLoop_break_err (fetch : Nat → FetchResp) (fuel i : Nat)
    (after_id previous_after_id : Option String) (cs : Counts)
    (hc : ¬ (after_id = previous_after_id ∧ after_id ≠ none))
    (he : fetch i = FetchResp.err) :
    connLoop fetch (fuel + 1) i after_id previous_after_id cs = some cs := by
  rw [connLoop_succ, if_neg hc, he]

theorem connLoop_step_ok_full (fetch : Nat → FetchResp) (fuel i : Nat)
    (after_id previous_after_id : Option String) (cs : Counts) (logs : List CLog)
    (hc : ¬ (after_id = previous_after_id ∧ after_id ≠ none))
    (hf : fetch i = FetchResp.ok logs) (hne : logs ≠ []) (hlen : ¬ logs.length < 100) :
    connLoop fetch (fuel + 1) i after_id previous_after_id cs =
      connLoop fetch fuel (i + 1) (lastId logs) after_id (processLogs cs logs) := by
  rw [connLoop_succ, if_neg hc, hf]
  simp [hne, hlen]

/-! ## Claim theorems -/

theorem keyEvents_mem_facts (k : String) (l : List Event) (e : Event)
    (he : e ∈ keyEvents k l) :
    resourceTypeOf e = "workspace_build" ∧ sessionKey e = k := by
  have hp := List.of_mem_filter he
  simpa [Bool.and_eq_true, beq_iff_eq] using hp

/-- Claim C5: a workspace_build "stop" (or "delete") event whose session key has
no open session is a no-op on the fold state: no Session record is produced and
both the open-session dict and the closed-session list are unchanged
(coder-last.py lines 99-112, the "if session_key in user_sessions" guard). -/
theorem orphan_stop_is_noop (ss : List Session) (m : List (String × OpenSession))
    (e : Event)
    (h1 : resourceTypeOf e = "workspace_build")
    (h2 : actionOf e = "stop" ∨ actionOf e = "delete")
    (h3 : dictLookup (sessionKey e) m = none) :
    step (ss, m) e = (ss, m) := by
  have hns : ¬ actionOf e = "start" := by
    rcases h2 with h | h <;> rw [h] <;> decide
  unfold step
  rw [if_pos h1, if_neg hns, if_pos h2, h3]

/-- Witness for C5: a stop for alice:dev1 against an empty open-session dict
leaves the state unchanged. -/
theorem orphan_stop_is_noop_witness :
    resourceTypeOf sampleStop = "workspace_build" ∧
    (actionOf sampleStop = "stop" ∨ actionOf sampleStop = "delete") ∧
    dictLookup (sessionKey sampleStop) ([] : List (String × OpenSession)) = none ∧
    step ([], []) sampleStop = ([], []) :=
  ⟨rfl, Or.inl rfl, rfl, orphan_stop_is_noop [] [] sampleStop rfl (Or.inl rfl) rfl⟩

/-- Claim C3: at every step of the fold over the time-sorted batch (that is,
after any prefix of it), the open-session dict "user_sessions" holds at most
one entry per session key. -/
theorem at_most_one_open_session_per_key (bs : List Event) (n : Nat) (k : String) :
    ((((sortByTime bs).take n).foldl step ([], [])).2).countP (fun p => p.1 == k) ≤ 1 :=
  countP_keys_le_one k _ (nodup_keys_foldl_step _ [] [] (by simp))

/-- Claim C1: if, in the ascending time sort of a batch, the workspace_build
events carrying session key k are exactly a "start" followed by a "stop", the
fold emits exactly one closed Session for that key; its start time is the start
event's time and its end time is the stop event's time. "taggedClosed" is the
source closed-session list with each record tagged by the key of the event that
emitted it (last conjunct: erasing the tags gives the source output). -/
theorem start_stop_pair_one_closed_session
    (bs : List Event) (k : String) (e1 e2 : Event)
    (h : keyEvents k (sortByTime bs) = [e1, e2])
    (ha1 : actionOf e1 = "start") (ha2 : actionOf e2 = "stop") :
    (taggedClosed bs).filter (fun p => p.1 == k) =
      [(k, closeRecord (mkOpen e1) e2)] ∧
    (closeRecord (mkOpen e1) e2).start_time = timeOf e1 ∧
    (closeRecord (mkOpen e1) e2).end_time = some (timeOf e2) ∧
    (reconstructState bs).1 = (taggedClosed bs).map Prod.snd := by
  obtain ⟨hw1, hk1⟩ := keyEvents_mem_facts k _ e1 (by rw [h]; exact List.mem_cons_self _ _)
  obtain ⟨hw2, hk2⟩ := keyEvents_mem_facts k _ e2 (by rw [h]; simp)
  obtain ⟨hf, _⟩ := proj_key k (sortByTime bs) [] [] rfl
  rw [h] at hf
  have hcomp : (([e1, e2].foldl stepT ([], [])).1) = [(k, closeRecord (mkOpen e1) e2)] := by
    simp only [List.foldl_cons, List.foldl_nil]
    have hno1 : ¬ (actionOf e1 = "stop" ∨ actionOf e1 = "delete") := by
      rw [ha1]; decide
    have hem1 : emit1 e1 [] = [] := by
      unfold emit1
      rw [if_neg (fun hc => hno1 hc.2)]
    have hm1 : mapStep e1 [] = [(k, mkOpen e1)] := by
      unfold mapStep
      rw [if_pos hw1, if_pos ha1, hk1]
      rfl
    have hs1 : stepT ([], []) e1 = ([], [(k, mkOpen e1)]) := by
      show ([] ++ emit1 e1 [], mapStep e1 []) = ([], [(k, mkOpen e1)])
      rw [hem1, hm1]
      rfl
    rw [hs1]
    have hyes2 : actionOf e2 = "stop" ∨ actionOf e2 = "delete" := Or.inl ha2
    have hlk : dictLookup (sessionKey e2) [(k, mkOpen e1)] = some (mkOpen e1) := by
      rw [hk2]
      unfold dictLookup
      rw [if_pos rfl]
    have hem2 : emit1 e2 [(k, mkOpen e1)] = [(k, closeRecord (mkOpen e1) e2)] := by
      unfold emit1
      rw [if_pos ⟨hw2, hyes2⟩]
      simp [hk2, dictLookup]
    show ([] ++ emit1 e2 [(k, mkOpen e1)], mapStep e2 [(k, mkOpen e1)]).1 = _
    rw [hem2]
    rfl
  refine ⟨?_, rfl, rfl, reconstructState_fst_eq_tagged bs⟩
  show ((sortByTime bs).foldl stepT ([], [])).1.filter (fun p => p.1 == k) = _
  rw [hf, hcomp]
  simp

/-- Witness for C1: the two-event alice:dev1 batch from the end-to-end scenario. -/
theorem start_stop_pair_one_closed_session_witness :
    keyEvents "alice:dev1" (sortByTime [sampleStart, sampleStop]) =
      [sampleStart, sampleStop] ∧
    actionOf sampleStart = "start" ∧
    actionOf sampleStop = "stop" ∧
    ((taggedClosed [sampleStart, sampleStop]).filter (fun p => p.1 == "alice:dev1") =
      [("alice:dev1", closeRecord (mkOpen sampleStart) sampleStop)] ∧
    (closeRecord (mkOpen sampleStart) sampleStop).start_time = timeOf sampleStart ∧
    (closeRecord (mkOpen sampleStart) sampleStop).end_time = some (timeOf sampleStop) ∧
    (reconstructState [sampleStart, sampleStop]).1 =
      (taggedClosed [sampleStart, sampleStop]).map Prod.snd) :=
  ⟨by decide, rfl, rfl,
   start_stop_pair_one_closed_session [sampleStart, sampleStop] "alice:dev1"
     sampleStart sampleStop (by decide) rfl rfl⟩

/-- Claim C4: if the workspace_build events for key k in the ascending time
sort are exactly two "start" events, the fold emits no closed Session for that
key and the open-session dict finally holds the second start's data for k
(last start wins, coder-last.py lines 90-98). -/
theorem double_start_last_start_wins
    (bs : List Event) (k : String) (e1 e2 : Event)
    (h : keyEvents k (sortByTime bs) = [e1, e2])
    (ha1 : actionOf e1 = "start") (ha2 : actionOf e2 = "start") :
    (taggedClosed bs).filter (fun p => p.1 == k) = [] ∧
    dictLookup k (reconstructState bs).2 = some (mkOpen e2) ∧
    (mkOpen e2).start_time = timeOf e2 ∧
    (reconstructState bs).1 = (taggedClosed bs).map Prod.snd := by
  obtain ⟨hw1, hk1⟩ := keyEvents_mem_facts k _ e1 (by rw [h]; exact List.mem_cons_self _ _)
  obtain ⟨hw2, hk2⟩ := keyEvents_mem_facts k _ e2 (by rw [h]; simp)
  obtain ⟨hf, hsnd⟩ := proj_key k (sortByTime bs) [] [] rfl
  rw [h] at hf hsnd
  have hno1 : ¬ (actionOf e1 = "stop" ∨ actionOf e1 = "delete") := by rw [ha1]; decide
  have hno2 : ¬ (actionOf e2 = "stop" ∨ actionOf e2 = "delete") := by rw [ha2]; decide
  have hem1 : emit1 e1 [] = [] := by
    unfold emit1
    rw [if_neg (fun hc => hno1 hc.2)]
  have hm1 : mapStep e1 [] = [(k, mkOpen e1)] := by
    unfold mapStep
    rw [if_pos hw1, if_pos ha1, hk1]
    rfl
  have hs1 : stepT ([], []) e1 = ([], [(k, mkOpen e1)]) := by
    show ([] ++ emit1 e1 [], mapStep e1 []) = ([], [(k, mkOpen e1)])
    rw [hem1, hm1]
    rfl
  have hem2 : emit1 e2 [(k, mkOpen e1)] = [] := by
    unfold emit1
    rw [if_neg (fun hc => hno2 hc.2)]
  have hm2 : mapStep e2 [(k, mkOpen e1)] = [(k, mkOpen e2)] := by
    unfold mapStep
    rw [if_pos hw2, if_pos ha2, hk2]
    unfold dictInsert
    rw [if_pos rfl]
  have hfold : [e1, e2].foldl stepT ([], []) = ([], [(k, mkOpen e2)]) := by
    simp only [List.foldl_cons, List.foldl_nil]
    rw [hs1]
    show ([] ++ emit1 e2 [(k, mkOpen e1)], mapStep e2 [(k, mkOpen e1)]) = _
    rw [hem2, hm2]
    rfl
  refine ⟨?_, ?_, rfl, reconstructState_fst_eq_tagged bs⟩
  · show ((sortByTime bs).foldl stepT ([], [])).1.filter (fun p => p.1 == k) = []
    rw [hf, hfold]
    rfl
  · rw [reconstructState_snd_eq_tagged bs, hsnd, hfold]
    show dictLookup k [(k, mkOpen e2)] = some (mkOpen e2)
    unfold dictLookup
    rw [if_pos rfl]

/-- Witness for C4: two starts for alice:dev1 at 09:00 and 10:00. -/
theorem double_start_last_start_wins_witness :
    keyEvents "alice:dev1" (sortByTime [sampleStart, sampleStart2]) =
      [sampleStart, sampleStart2] ∧
    actionOf sampleStart = "start" ∧
    actionOf sampleStart2 = "start" ∧
    ((taggedClosed [sampleStart, sampleStart2]).filter (fun p => p.1 == "alice:dev1") = [] ∧
    dictLookup "alice:dev1" (reconstructState [sampleStart, sampleStart2]).2 =
      some (mkOpen sampleStart2) ∧
    (mkOpen sampleStart2).start_time = timeOf sampleStart2 ∧
    (reconstructState [sampleStart, sampleStart2]).1 =
      (taggedClosed [sampleStart, sampleStart2]).map Prod.snd) :=
  ⟨by decide, rfl, rfl,
   double_start_last_start_wins [sampleStart, sampleStart2] "alice:dev1"
     sampleStart sampleStart2 (by decide) rfl rfl⟩

theorem foldl_stepT_snd_acc (evs : List Event)
    (st : List (String × Session) × List (String × OpenSession)) :
    (evs.foldl stepT st).2 = (evs.foldl stepT ([], st.2)).2 := by
  obtain ⟨ts, m⟩ := st
  rw [foldl_stepT_acc evs ts m]

theorem foldT_snd_lookup_isSome (k : String) :
    ∀ (evs : List Event) (m : List (String × OpenSession)),
      (∀ e1 ∈ evs, ¬ (resourceTypeOf e1 = "workspace_build" ∧ sessionKey e1 = k ∧
          (actionOf e1 = "stop" ∨ actionOf e1 = "delete"))) →
      (dictLookup k m).isSome = true →
      (dictLookup k ((evs.foldl stepT ([], m)).2)).isSome = true := by
  intro evs
  induction evs with
  | nil =>
    intro m h hm
    exact hm
  | cons e rest ih =>
    intro m h hm
    rw [foldl_stepT_cons_normal e rest m]
    refine ih (mapStep e m) (fun e1 he1 => h e1 (List.mem_cons_of_mem _ he1)) ?_
    by_cases hp : resourceTypeOf e = "workspace_build" ∧ sessionKey e = k
    · by_cases hs : actionOf e = "start"
      · unfold mapStep
        rw [if_pos hp.1, if_pos hs, hp.2, dictLookup_dictInsert_self]
        rfl
      · by_cases hsd : actionOf e = "stop" ∨ actionOf e = "delete"
        · exact absurd ⟨hp.1, hp.2, hsd⟩ (h e (List.mem_cons_self _ _))
        · unfold mapStep
          rw [if_pos hp.1, if_neg hs, if_neg hsd]
          exact hm
    · rw [mapStep_lookup_of_not e k m hp]
      exact hm

/-- Claim C6 (amended): for every batch containing a workspace_build "start"
event with no following "stop" or "delete" for the same SessionKey (events for
the key before the start, and further starts after it, are unconstrained),
reconstruction produces exactly one open Session for that key, reported with a
null end time and the literal duration "still logged in" (the code literal at
coder-last.py line 122; the claim's "still open" does not occur in the code). -/
theorem start_without_following_close_one_open_session
    (bs : List Event) (k : String) (pre post : List Event) (e : Event)
    (h : keyEvents k (sortByTime bs) = pre ++ e :: post)
    (ha : actionOf e = "start")
    (hpost : ∀ e1 ∈ post, ¬ (actionOf e1 = "stop" ∨ actionOf e1 = "delete")) :
    ∃ os, dictLookup k (reconstructState bs).2 = some os ∧
      (reconstructState bs).2.countP (fun p => p.1 == k) = 1 ∧
      openRecord os ∈ sessionsOutput bs ∧
      (openRecord os).end_time = none ∧
      (openRecord os).duration = "still logged in" := by
  obtain ⟨hw, hk⟩ := keyEvents_mem_facts k _ e
    (by rw [h]; exact List.mem_append.mpr (Or.inr (List.mem_cons_self _ _)))
  obtain ⟨_, hsnd⟩ := proj_key k (sortByTime bs) [] [] rfl
  rw [h] at hsnd
  have hsplit : ((pre ++ e :: post).foldl stepT ([], [])).2 =
      (post.foldl stepT ([], mapStep e ((pre.foldl stepT ([], [])).2))).2 := by
    rw [List.foldl_append]
    rw [foldl_stepT_snd_acc (e :: post) (pre.foldl stepT ([], []))]
    rw [foldl_stepT_cons_normal e post ((pre.foldl stepT ([], [])).2)]
  rw [hsplit] at hsnd
  have hstart : dictLookup k (mapStep e ((pre.foldl stepT ([], [])).2)) =
      some (mkOpen e) := by
    unfold mapStep
    rw [if_pos hw, if_pos ha, hk, dictLookup_dictInsert_self]
  have hpost2 : ∀ e1 ∈ post, ¬ (resourceTypeOf e1 = "workspace_build" ∧
      sessionKey e1 = k ∧ (actionOf e1 = "stop" ∨ actionOf e1 = "delete")) :=
    fun e1 he1 hc => hpost e1 he1 hc.2.2
  have hiss : (dictLookup k
      ((post.foldl stepT ([], mapStep e ((pre.foldl stepT ([], [])).2))).2)).isSome =
      true :=
    foldT_snd_lookup_isSome k post _ hpost2 (by rw [hstart]; rfl)
  obtain ⟨os, hos⟩ := Option.isSome_iff_exists.mp hiss
  have hlook : dictLookup k (reconstructState bs).2 = some os := by
    rw [reconstructState_snd_eq_tagged bs, hsnd]
    exact hos
  have hnodup : (((reconstructState bs).2).map Prod.fst).Nodup := by
    show (((sortByTime bs).foldl step ([], [])).2.map Prod.fst).Nodup
    exact nodup_keys_foldl_step _ [] [] (by simp)
  refine ⟨os, hlook, countP_keys_eq_one_of_lookup k os _ hlook hnodup, ?_, rfl, rfl⟩
  have hmem : (k, os) ∈ (reconstructState bs).2 := dictLookup_some_mem _ _ _ hlook
  unfold sessionsOutput
  refine List.mem_append.mpr (Or.inr ?_)
  exact List.mem_map.mpr ⟨(k, os), hmem, rfl⟩

/-- Witness for C6 (amended): a closed 09:00-11:30 pair for alice:dev1 followed
by a lone 12:00 start with nothing after it; exactly one open session remains,
reported as "still logged in". -/
theorem start_without_following_close_one_open_session_witness :
    keyEvents "alice:dev1" (sortByTime [sampleStart, sampleStop, sampleStart3]) =
      [sampleStart, sampleStop] ++ sampleStart3 :: [] ∧
    actionOf sampleStart3 = "start" ∧
    (∃ os, dictLookup "alice:dev1"
        (reconstructState [sampleStart, sampleStop, sampleStart3]).2 = some os ∧
      (reconstructState [sampleStart, sampleStop, sampleStart3]).2.countP
        (fun p => p.1 == "alice:dev1") = 1 ∧
      openRecord os ∈ sessionsOutput [sampleStart, sampleStop, sampleStart3] ∧
      (openRecord os).end_time = none ∧
      (openRecord os).duration = "still logged in") :=
  ⟨by decide, rfl,
   start_without_following_close_one_open_session
     [sampleStart, sampleStop, sampleStart3] "alice:dev1"
     [sampleStart, sampleStop] [] sampleStart3 (by decide) rfl
     (fun e1 he1 => absurd he1 (List.not_mem_nil e1))⟩

/-- Counterexample to C6 as stated: reconstruction of a lone start event
reports its open session with durationDisplay "still logged in", not the
claimed literal "still open". -/
theorem open_session_duration_not_still_open_cex :
    sessionsOutput [sampleStart] = [openRecord (mkOpen sampleStart)] ∧
    (openRecord (mkOpen sampleStart)).duration = "still logged in" ∧
    (openRecord (mkOpen sampleStart)).duration ≠ "still open" := by
  refine ⟨rfl, rfl, by decide⟩

/-- Claim C7: every closed Session whose start and end timestamps parse has
durationDisplay equal to the end minus start difference rendered as whole
hours and minutes, zero-padded to two digits, in the shape "(HH:MM)"
(coder-last.py lines 43-52: floor division of the total seconds). -/
theorem closed_session_duration_formula
    (bs : List Event) (s : Session) (b : String) (x y : Int)
    (hs : s ∈ (reconstructState bs).1)
    (he : s.end_time = some b)
    (hx : parseTimestamp s.start_time = some x)
    (hy : parseTimestamp b = some y) :
    s.duration = "(" ++ pad2 (Int.fdiv (y - x) 3600) ++ ":" ++
      pad2 (Int.fdiv (Int.emod (y - x) 3600) 60) ++ ")" := by
  have hmem := mem_foldl_step_fst (sortByTime bs) [] [] s hs
  rcases hmem with hss | ⟨os, e0, rfl⟩
  · simp at hss
  · have htb : timeOf e0 = b := Option.some.inj he
    have hxs : parseTimestamp os.start_time = some x := hx
    have hbne : ¬ b = "" := by
      intro hh
      rw [hh] at hy
      have hnone : parseTimestamp "" = none := rfl
      rw [hnone] at hy
      exact Option.noConfusion hy
    show format_duration os.start_time (some (timeOf e0)) = _
    rw [htb]
    simp only [format_duration, hxs, hy, if_neg hbne]

set_option maxRecDepth 8192 in
/-- Witness for C7: the 09:00 to 11:30 session renders as "(02:30)". -/
theorem closed_session_duration_formula_witness :
    (reconstructState [sampleStart, sampleStop]).1 =
      [closeRecord (mkOpen sampleStart) sampleStop] ∧
    (closeRecord (mkOpen sampleStart) sampleStop).end_time =
      some "2024-01-01T11:30:00Z" ∧
    parseTimestamp (closeRecord (mkOpen sampleStart) sampleStop).start_time =
      some 1704099600 ∧
    parseTimestamp "2024-01-01T11:30:00Z" = some 1704108600 ∧
    (closeRecord (mkOpen sampleStart) sampleStop).duration = "(02:30)" := by
  have hmem : (reconstructState [sampleStart, sampleStop]).1 =
      [closeRecord (mkOpen sampleStart) sampleStop] := by decide
  refine ⟨hmem, rfl, by decide, by decide, ?_⟩
  have h := closed_session_duration_formula [sampleStart, sampleStop]
    (closeRecord (mkOpen sampleStart) sampleStop) "2024-01-01T11:30:00Z"
    1704099600 1704108600
    (by rw [hmem]; exact List.mem_cons_self _ _) rfl (by decide) (by decide)
  rw [h]
  decide

/-- Claim C2: when the pagination cursor (the id of the last log of a page) is
the same non-null value on two consecutive iterations, the loop detects the
repeat on the next check and terminates, returning exactly the counts
accumulated from the pages processed before detection; no later response is
consulted (connect_count.py lines 67-69). -/
theorem cycle_detection_terminates_with_collected_events
    (fetch : Nat → FetchResp) (l0 l1 : List CLog) (x : String)
    (h0 : fetch 0 = FetchResp.ok l0) (h1 : fetch 1 = FetchResp.ok l1)
    (hl0 : 100 ≤ l0.length) (hl1 : 100 ≤ l1.length)
    (hx0 : lastId l0 = some x) (hx1 : lastId l1 = some x) (fuel : Nat) :
    get_connection_data fetch (fuel + 3) =
      some (processLogs (processLogs initCounts l0) l1) := by
  have hne0 : l0 ≠ [] := by
    intro hh
    rw [hh] at hl0
    simp at hl0
  have hne1 : l1 ≠ [] := by
    intro hh
    rw [hh] at hl1
    simp at hl1
  have hlt0 : ¬ l0.length < 100 := not_lt.mpr hl0
  have hlt1 : ¬ l1.length < 100 := not_lt.mpr hl1
  have hc1 : ¬ ((none : Option String) = none ∧ (none : Option String) ≠ none) := by
    simp
  have hc2 : ¬ ((some x : Option String) = none ∧ (some x : Option String) ≠ none) := by
    simp
  unfold get_connection_data
  have e3 : fuel + 3 = (fuel + 2) + 1 := rfl
  rw [e3, connLoop_step_ok_full fetch (fuel + 2) 0 none none initCounts l0 hc1 h0 hne0 hlt0,
      hx0]
  have e2 : fuel + 2 = (fuel + 1) + 1 := rfl
  rw [e2, connLoop_step_ok_full fetch (fuel + 1) 1 (some x) none
        (processLogs initCounts l0) l1 hc2 h1 hne1 hlt1,
      hx1]
  exact connLoop_break_cycle fetch fuel 2 (some x) (some x) _ ⟨rfl, by simp⟩

/-- Witness for C2: a stub returning the same full page (cursor "X") twice. -/
theorem cycle_detection_witness :
    fetchCycle 0 = FetchResp.ok samplePage ∧
    fetchCycle 1 = FetchResp.ok samplePage ∧
    100 ≤ samplePage.length ∧
    lastId samplePage = some "X" ∧
    get_connection_data fetchCycle 3 =
      some (processLogs (processLogs initCounts samplePage) samplePage) := by
  refine ⟨by decide, by decide, by decide, by decide, ?_⟩
  exact cycle_detection_terminates_with_collected_events fetchCycle samplePage
    samplePage "X" (by decide) (by decide) (by decide) (by decide) (by decide)
    (by decide) 0

/-- Claim C8: aggregation deduplicates nothing: a batch with an event occurring
twice counts that event's action twice, and, for a login, its user twice,
compared to the batch with the event occurring once (connect_count.py lines
104-117). -/
theorem duplicate_event_double_counts (l r s : List CLog) (e : CLog) :
    (processLogs initCounts (l ++ e :: r ++ e :: s)).action_counts e.action =
      (processLogs initCounts (l ++ e :: r ++ s)).action_counts e.action + 1 ∧
    (e.action = some "login" →
      (processLogs initCounts (l ++ e :: r ++ e :: s)).login_counts (usernameOf e) =
        (processLogs initCounts (l ++ e :: r ++ s)).login_counts (usernameOf e) + 1) := by
  constructor
  · rw [processLogs_action_counts, processLogs_action_counts]
    have hone : (if true = true then 1 else 0) = 1 := by decide
    simp only [List.countP_append, List.countP_cons, beq_self_eq_true, hone, if_true]
    omega
  · intro hl
    rw [processLogs_login_counts, processLogs_login_counts]
    have hb : (e.action == some "login" && usernameOf e == usernameOf e) = true := by
      rw [hl]
      simp
    have hone : (if true = true then 1 else 0) = 1 := by decide
    simp only [List.countP_append, List.countP_cons, hb, hone, if_true]
    omega

/-- Witness for C8: the login record counted once versus twice. -/
theorem duplicate_event_double_counts_witness :
    sampleLoginLog.action = some "login" ∧
    (processLogs initCounts [sampleLoginLog, sampleLoginLog]).action_counts
        sampleLoginLog.action =
      (processLogs initCounts [sampleLoginLog]).action_counts sampleLoginLog.action + 1 ∧
    (processLogs initCounts [sampleLoginLog, sampleLoginLog]).login_counts
        (usernameOf sampleLoginLog) =
      (processLogs initCounts [sampleLoginLog]).login_counts (usernameOf sampleLoginLog)
        + 1 := by
  have h := duplicate_event_double_counts [] [] [] sampleLoginLog
  exact ⟨rfl, h.1, h.2 rfl⟩

/-- Claim C9 (amended): a non-success response does not abort the run: the
connect_count.py loop prints the status and breaks, returning the counts
accumulated so far, which feed the normal output tables; and get_audit_logs in
coder-last.py turns a request error into the empty list. -/
theorem non_success_returns_partial_counts
    (fetch : Nat → FetchResp) (fuel i : Nat)
    (after_id previous_after_id : Option String) (cs : Counts)
    (hc : ¬ (after_id = previous_after_id ∧ after_id ≠ none))
    (he : fetch i = FetchResp.err) :
    connLoop fetch (fuel + 1) i after_id previous_after_id cs = some cs ∧
    get_audit_logs (Except.error ()) = [] :=
  ⟨connLoop_break_err fetch fuel i after_id previous_after_id cs hc he, rfl⟩

/-- Witness for C9 (amended): the stub failing on the second request. -/
theorem non_success_returns_partial_counts_witness :
    fetchFail 1 = FetchResp.err ∧
    (connLoop fetchFail 5 1 none none initCounts = some initCounts ∧
     get_audit_logs (Except.error ()) = []) :=
  ⟨by decide,
   non_success_returns_partial_counts fetchFail 4 1 none none initCounts
     (by simp) (by decide)⟩

set_option maxRecDepth 8192 in
/-- Counterexample to C9 as stated: after one full page of 100 logins and then
a non-2xx response, the run returns normally with the partial counts retained
(100 logins for alice) instead of aborting with an error and discarding them. -/
theorem non_success_partial_counts_used_cex :
    Option.map (fun cs => cs.login_counts "alice") (get_connection_data fetchFail 10) =
      some 100 ∧
    Option.map (fun cs => cs.login_counts "alice") (get_connection_data fetchFail 10) ≠
      some 0 := by
  have h : Option.map (fun cs => cs.login_counts "alice")
      (get_connection_data fetchFail 10) = some 100 := by decide
  refine ⟨h, ?_⟩
  rw [h]
  decide

set_option maxRecDepth 8192 in
/-- Claim C10: the colon-joined session key is not injective on the
(username, workspace name) pair: user "a" with workspace "b:c" and user "a:b"
with workspace "c" share the key "a:b:c", so the start for the first pair is
closed by the stop for the second, yielding one closed session spanning the
two distinct pairs. -/
theorem session_key_collision_correlates_distinct_pairs :
    sessionKey joinStart = sessionKey joinStop ∧
    (userOf joinStart, workspaceNameOf joinStart) ≠
      (userOf joinStop, workspaceNameOf joinStop) ∧
    sessionsOutput [joinStart, joinStop] =
      [closeRecord (mkOpen joinStart) joinStop] ∧
    (closeRecord (mkOpen joinStart) joinStop).start_time = timeOf joinStart ∧
    (closeRecord (mkOpen joinStart) joinStop).end_time = some (timeOf joinStop) := by
  refine ⟨by decide, by decide, by decide, rfl, rfl⟩
